import Mathlib

/-!
Verification development for the canvas auto-generation core of `src/main.ts`
(an Obsidian plugin that builds and incrementally expands a node-link canvas
for a markdown note's link neighborhood).

The TypeScript source is shallowly embedded here:
* documents (markdown `TFile`s) become the structure `Doc` (path + basename);
* the host metadata cache (`app.metadataCache.resolvedLinks`) and the vault
  become the structure `Env`;
* `Map` / `Set` objects become insertion-ordered association lists;
* JavaScript numbers used for coordinates become `ℚ` (all arithmetic the
  source performs on them is exact at these magnitudes);
* the recursive traversal `exploreAllConnections` is embedded with an explicit
  fuel argument `fuel = maxDepth + 1 - currentDepth`, so that the source guard
  `currentDepth > maxDepth` becomes `fuel = 0` and each recursive call at
  `currentDepth + 1` becomes a structurally smaller call at `fuel - 1`;
* the nondeterministic id generation in `expandCanvas`
  (`Date.now()`/`Math.random()`) becomes explicit generator parameters
  `mkNodeId mkEdgeId : Nat → String` indexed by loop iteration;
* the read/parse/write cycle of `expandCanvas` is modelled one level up:
  the parsed persisted diagram is an `Option Diagram` input (`none` = JSON
  parse failure) and the result is an `Option Diagram` (`none` = the function
  returned without calling `vault.modify`, i.e. nothing was written).
-/

/-- A markdown file in the vault (`TFile`): identity is the vault `path`;
`basename` is used only for display-name sorting. -/
structure Doc where
  path : String
  basename : String
deriving DecidableEq, Repr

/-- The host environment seen by the plugin: `resolvedLinks` is
`app.metadataCache.resolvedLinks` (source path ↦ target paths, in object-entry
order; a target is listed when its link count is nonzero), and `files` is the
set of markdown `TFile`s in the vault, in iteration order. -/
structure Env where
  resolvedLinks : List (String × List String)
  files : List Doc
deriving DecidableEq, Repr

/-- `app.vault.getAbstractFileByPath` restricted to markdown `TFile`s
(the source always checks `instanceof TFile && extension === 'md'`). -/
def getFile (env : Env) (p : String) : Option Doc :=
  env.files.find? (fun f => f.path == p)

/-- `getForwardLinks` (src/main.ts:325-339): the resolved link targets of
`file` that exist in the vault as markdown files. -/
def getForwardLinks (env : Env) (file : Doc) : List Doc :=
  match (env.resolvedLinks.find? (fun e => e.1 == file.path)).map (fun e => e.2) with
  | none => []
  | some targets => targets.filterMap (getFile env)

/-- `getBacklinks` (src/main.ts:308-323): every source file of
`resolvedLinks` whose link set contains `file.path` and which exists in the
vault as a markdown file, in `resolvedLinks` entry order. -/
def getBacklinks (env : Env) (file : Doc) : List Doc :=
  env.resolvedLinks.filterMap (fun e =>
    if file.path ∈ e.2 then getFile env e.1 else none)

/-- A traversal node `{file, level, isBacklink}` as produced by
`getAllNodesAndConnections`. -/
structure GNode where
  doc : Doc
  level : Nat
  isBacklink : Bool
deriving DecidableEq, Repr

/-- The mutable state threaded through `exploreAllConnections`:
`visited : Set<string>`, `nodes` (push-append array), and
`connections : Map<string, Set<string>>` modelled as an insertion-ordered
association list of insertion-ordered duplicate-free target lists. -/
structure St where
  visited : List String
  nodes : List GNode
  conns : List (String × List String)
deriving DecidableEq, Repr

/-- `connections.has(k)`. -/
def connsHas (c : List (String × List String)) (k : String) : Bool :=
  c.any (fun e => e.1 == k)

/-- `connections.set(k, v)`: replace the value of an existing key in place,
otherwise append a new entry (JavaScript `Map.set` semantics). -/
def connsSet (k : String) (v : List String) (c : List (String × List String)) :
    List (String × List String) :=
  if connsHas c k then c.map (fun e => if e.1 == k then (e.1, v) else e)
  else c ++ [(k, v)]

/-- `connections.get(k)!.add(v)`: add `v` to the target set of `k`
(`Set.add`: append if absent). A missing key is left untouched — the source
only calls this after ensuring the key exists. -/
def connsAdd (k v : String) (c : List (String × List String)) :
    List (String × List String) :=
  c.map (fun e => if e.1 == k then (e.1, if v ∈ e.2 then e.2 else e.2 ++ [v]) else e)

/-- Lines 743-746 of `exploreAllConnections`: initialize the connection set of
the current file if it has no entry yet. -/
def initConns (p : String) (st : St) : St :=
  if connsHas st.conns p then st else { st with conns := connsSet p [] st.conns }

/-- The forward-link loop of `exploreAllConnections` (src/main.ts:749-762).
`sub` is the recursive call at the next depth (`currentDepth + 1`). -/
def goFwdLinks (sub : Doc → St → St) (d : Nat) (filePath : String) :
    List Doc → St → St
  | [], st => st
  | linkedFile :: rest, st =>
    let st1 : St := { st with conns := connsAdd filePath linkedFile.path st.conns }
    let st2 : St :=
      if linkedFile.path ∈ st1.visited then st1
      else
        sub linkedFile
          { st1 with
            visited := st1.visited ++ [linkedFile.path]
            nodes := st1.nodes ++ [⟨linkedFile, d, false⟩]
            conns := connsSet linkedFile.path [] st1.conns }
    goFwdLinks sub d filePath rest st2

/-- The backlink loop of `exploreAllConnections` (src/main.ts:765-780).
`sub` is the recursive call at the next depth. -/
def goBwdLinks (sub : Doc → St → St) (d : Nat) (filePath : String) :
    List Doc → St → St
  | [], st => st
  | linkedFile :: rest, st =>
    let c1 := if connsHas st.conns linkedFile.path then st.conns
              else connsSet linkedFile.path [] st.conns
    let st1 : St := { st with conns := connsAdd linkedFile.path filePath c1 }
    let st2 : St :=
      if linkedFile.path ∈ st1.visited then st1
      else
        sub linkedFile
          { st1 with
            visited := st1.visited ++ [linkedFile.path]
            nodes := st1.nodes ++ [⟨linkedFile, d, true⟩] }
    goBwdLinks sub d filePath rest st2

/-- The body of `exploreAllConnections` (src/main.ts:729-781) with the depth
bound expressed as fuel: `fuel = maxDepth + 1 - currentDepth`, so `fuel = 0`
is exactly the guard `currentDepth > maxDepth`, and the recursive call at
`currentDepth + 1` runs at `fuel - 1`. `d` is `currentDepth` (the level
recorded on newly discovered nodes). -/
def exploreDoc (env : Env) : Nat → Nat → Doc → St → St
  | 0, _, _, st => st
  | fuel + 1, d, file, st =>
    let forwardLinks := getForwardLinks env file
    let backlinks := getBacklinks env file
    let st0 := initConns file.path st
    let st1 := goFwdLinks (exploreDoc env fuel (d + 1)) d file.path forwardLinks st0
    goBwdLinks (exploreDoc env fuel (d + 1)) d file.path backlinks st1

/-- `exploreAllConnections(file, maxDepth, currentDepth, visited, nodes,
connections)` (src/main.ts:729-781). -/
def exploreAllConnections (env : Env) (file : Doc) (maxDepth currentDepth : Nat)
    (st : St) : St :=
  exploreDoc env (maxDepth + 1 - currentDepth) currentDepth file st

/-- `getAllNodesAndConnections` (src/main.ts:341-358): seed the state with the
center node at level 0 and explore from depth 1. -/
def getAllNodesAndConnections (env : Env) (centerFile : Doc) (depth : Nat) : St :=
  exploreAllConnections env centerFile depth 1
    { visited := [centerFile.path]
      nodes := [⟨centerFile, 0, false⟩]
      conns := [(centerFile.path, [])] }

/-- `Math.max(...levels, 0)` over a list of levels. -/
def listMaxNat (l : List Nat) : Nat :=
  l.foldr max 0

/-- The comparison used by the intra-layer `sort` calls
(src/main.ts:405-411): `a.file.basename.localeCompare(b.file.basename)`,
modelled as the lexicographic order on the basename strings. -/
def gnodeLe (a b : GNode) : Prop :=
  a.doc.basename ≤ b.doc.basename

instance : DecidableRel gnodeLe :=
  fun a b => inferInstanceAs (Decidable (a.doc.basename ≤ b.doc.basename))

/-- `organizeNodesIntoLayers` (src/main.ts:360-431). The imperative
array-of-arrays construction is expressed bucket-wise: layer `ℓ` of a class
receives the synthetic center entry when `ℓ = 0` (line 384-385) followed by
the nodes of that class with `level = ℓ` in `allNodes` order (the `forEach`
at 388-402; its `node.level < layers.length` guard is encoded by `ℓ` ranging
over `0 .. maxLevel`, so out-of-range levels get no bucket). Each layer is
then sorted by basename, and the composed list is: backlink layers from
deepest to level 0 (empty layers skipped), then forward-link layers from
level 0 upward (empty layers skipped). The `connections` parameter is unused,
as in the source. -/
def organizeNodesIntoLayers (centerFile : Doc) (allNodes : List GNode)
    (connections : List (String × List String)) : List (List GNode) :=
  let _ := connections
  let maxBacklinkLevel :=
    listMaxNat ((allNodes.filter (fun n => n.isBacklink)).map (fun n => n.level))
  let maxForwardLinkLevel :=
    listMaxNat ((allNodes.filter (fun n => !n.isBacklink)).map (fun n => n.level))
  let backlinkLayers := (List.range (maxBacklinkLevel + 1)).map (fun ℓ =>
    List.insertionSort gnodeLe
      ((if ℓ = 0 then [⟨centerFile, 0, false⟩] else []) ++
        allNodes.filter (fun n =>
          n.doc.path ≠ centerFile.path && n.isBacklink && n.level == ℓ)))
  let forwardLinkLayers := (List.range (maxForwardLinkLevel + 1)).map (fun ℓ =>
    List.insertionSort gnodeLe
      ((if ℓ = 0 then [⟨centerFile, 0, false⟩] else []) ++
        allNodes.filter (fun n =>
          n.doc.path ≠ centerFile.path && !n.isBacklink && n.level == ℓ)))
  (backlinkLayers.reverse ++ forwardLinkLayers).filter (fun l => !l.isEmpty)

/-- A canvas node as persisted in the `.canvas` JSON. -/
structure DNode where
  id : String
  type : String
  file : String
  x : ℚ
  y : ℚ
  width : ℚ
  height : ℚ
deriving DecidableEq, Repr

/-- A canvas edge as persisted in the `.canvas` JSON. -/
structure DEdge where
  id : String
  fromNode : String
  fromSide : String
  toNode : String
  toSide : String
deriving DecidableEq, Repr

/-- The `meta` object of the persisted canvas. -/
structure Meta where
  created : String
  modified : String
deriving DecidableEq, Repr

/-- The persisted canvas data (`canvasData`). -/
structure Diagram where
  nodes : List DNode
  edges : List DEdge
  meta : Meta
deriving DecidableEq, Repr

/-- Layout constant `nodeWidth = 300` (src/main.ts:200, 458). -/
def nodeWidth : ℚ := 300

/-- Layout constant `nodeHeight = 200` (src/main.ts:201, 459). -/
def nodeHeight : ℚ := 200

/-- Layout constant `horizontalSpacing = 450` (src/main.ts:202, 456). -/
def horizontalSpacing : ℚ := 450

/-- Layout constant `verticalSpacing = 280` (src/main.ts:203, 457). -/
def verticalSpacing : ℚ := 280

/-- `Array.prototype.findIndex` returning `-1` when no element matches, used
for `centerLayerIndex` (src/main.ts:229-231). -/
def findIndexCenter (layers : List (List GNode)) (p : String) : Int :=
  match layers with
  | [] => -1
  | layer :: rest =>
    if layer.any (fun n => n.doc.path == p) then 0
    else
      let r := findIndexCenter rest p
      if r = -1 then -1 else r + 1

/-- `fileToNodeId.set` (JavaScript `Map.set`). -/
def mapSet (k v : String) (m : List (String × String)) : List (String × String) :=
  if m.any (fun e => e.1 == k) then m.map (fun e => if e.1 == k then (e.1, v) else e)
  else m ++ [(k, v)]

/-- `fileToNodeId.get`. -/
def mapGet (m : List (String × String)) (k : String) : Option String :=
  (m.find? (fun e => e.1 == k)).map (fun e => e.2)

/-- The inner node-placement loop of `createCanvasContent`
(src/main.ts:252-270): place the nodes of one layer top to bottom, skipping
the center file, numbering new nodes with the running `nodeIndex` counter.
State: (nodes array, fileToNodeId map, nodeIndex). -/
def placeRow (activePath : String) (layerX layerStartY : ℚ) :
    List GNode → Nat → List DNode × List (String × String) × Nat →
      List DNode × List (String × String) × Nat
  | [], _, acc => acc
  | nodeInfo :: rest, j, (nodes, m, idx) =>
    if nodeInfo.doc.path == activePath then
      placeRow activePath layerX layerStartY rest (j + 1) (nodes, m, idx)
    else
      let nodeId := "node-" ++ toString idx
      let nodeY := layerStartY + (j : ℚ) * verticalSpacing
      placeRow activePath layerX layerStartY rest (j + 1)
        (nodes ++ [⟨nodeId, "file", nodeInfo.doc.path, layerX, nodeY, nodeWidth, nodeHeight⟩],
         mapSet nodeInfo.doc.path nodeId m, idx + 1)

/-- The outer layer-placement loop of `createCanvasContent`
(src/main.ts:233-271): for each layer compute its column x (offset from the
center layer) and the vertically centered start y, then place its row. -/
def placeLayers (w h : ℚ) (activePath : String) (centerLayerIndex : Int) :
    List (List GNode) → Int → List DNode × List (String × String) × Nat →
      List DNode × List (String × String) × Nat
  | [], _, acc => acc
  | layer :: rest, layerIndex, acc =>
    let layerX : ℚ :=
      if layerIndex = centerLayerIndex then w / 2
      else w / 2 + ((layerIndex - centerLayerIndex : Int) : ℚ) * horizontalSpacing
    let totalLayerHeight : ℚ := ((layer.length : ℚ) - 1) * verticalSpacing
    let layerStartY : ℚ := h / 2 - totalLayerHeight / 2
    placeLayers w h activePath centerLayerIndex rest (layerIndex + 1)
      (placeRow activePath layerX layerStartY layer 0 acc)

/-- The inner edge-creation loop of `createCanvasContent`
(src/main.ts:281-292): one edge per target path that maps to a placed node id
different from the source's id; `edgeIndex` numbers the edges. -/
def buildEdgesInner (m : List (String × String)) (fromNodeId : String) :
    List String → List DEdge × Nat → List DEdge × Nat
  | [], acc => acc
  | toPath :: rest, (edges, k) =>
    match mapGet m toPath with
    | none => buildEdgesInner m fromNodeId rest (edges, k)
    | some toNodeId =>
      if fromNodeId ≠ toNodeId then
        buildEdgesInner m fromNodeId rest
          (edges ++ [⟨"edge-" ++ toString k, fromNodeId, "right", toNodeId, "left"⟩], k + 1)
      else buildEdgesInner m fromNodeId rest (edges, k)

/-- The outer edge-creation loop of `createCanvasContent`
(src/main.ts:278-294): iterate the connection map in entry order; a source
path with no placed node contributes nothing. -/
def buildEdges (m : List (String × String)) :
    List (String × List String) → List DEdge × Nat → List DEdge × Nat
  | [], acc => acc
  | (fromPath, toPaths) :: rest, acc =>
    match mapGet m fromPath with
    | none => buildEdges m rest acc
    | some fromNodeId => buildEdges m rest (buildEdgesInner m fromNodeId toPaths acc)

/-- The plugin settings used by the canvas builder. -/
structure Settings where
  canvasWidth : ℚ
  canvasHeight : ℚ
  linkDepth : Nat
deriving DecidableEq, Repr

/-- The node-placement stage of `createCanvasContent` (src/main.ts:206-271):
the center node is created first at the canvas center with the fixed id
`center-node` and registered in `fileToNodeId`; then the layers are placed
left to right. Returns (nodes, fileToNodeId, nodeIndex). -/
def placedOf (env : Env) (settings : Settings) (activeFile : Doc) :
    List DNode × List (String × String) × Nat :=
  let r := getAllNodesAndConnections env activeFile settings.linkDepth
  let layers := organizeNodesIntoLayers activeFile r.nodes r.conns
  let centerNode : DNode :=
    ⟨"center-node", "file", activeFile.path, settings.canvasWidth / 2,
     settings.canvasHeight / 2, nodeWidth, nodeHeight⟩
  placeLayers settings.canvasWidth settings.canvasHeight activeFile.path
    (findIndexCenter layers activeFile.path) layers 0
    ([centerNode], [(activeFile.path, "center-node")], 0)

/-- `createCanvasContent` (src/main.ts:192-306). Returns the canvas data
structure (the source serializes it to JSON; `now` stands for the
`new Date().toISOString()` timestamps). -/
def createCanvasContent (env : Env) (settings : Settings) (activeFile : Doc)
    (now : String) : Diagram :=
  { nodes := (placedOf env settings activeFile).1
    edges := (buildEdges (placedOf env settings activeFile).2.1
      (getAllNodesAndConnections env activeFile settings.linkDepth).conns ([], 0)).1
    meta := ⟨now, now⟩ }

/-- The expansion direction of `expandCanvas`. -/
inductive Dir where
  | left
  | right
deriving DecidableEq, Repr

/-- The vertical conflict test of `expandCanvas` (src/main.ts:499-506 and its
two repetitions): the candidate node's box (no padding) overlaps the existing
node's box padded by the 20-unit buffer on each side. The source uses the
constant `nodeHeight` for both boxes. -/
def conflictsWith (bestY : ℚ) (existingNode : DNode) : Bool :=
  let existingTop := existingNode.y - nodeHeight / 2 - 20
  let existingBottom := existingNode.y + nodeHeight / 2 + 20
  let newNodeTop := bestY - nodeHeight / 2
  let newNodeBottom := bestY + nodeHeight / 2
  decide (newNodeTop < existingBottom ∧ newNodeBottom > existingTop)

/-- The gap scan of `expandCanvas` (src/main.ts:543-553) over the ascending
y-coordinates of the existing nodes at the target column: find the first pair
of consecutive coordinates whose free span (after subtracting half-heights and
required spacing on both sides) is at least `nodeHeight`, and return the
center of that span. -/
def findGapY : List ℚ → Option ℚ
  | y1 :: y2 :: rest =>
    let gapStart := y1 + nodeHeight / 2 + verticalSpacing
    let gapEnd := y2 - nodeHeight / 2 - verticalSpacing
    if gapEnd - gapStart ≥ nodeHeight then some (gapStart + (gapEnd - gapStart) / 2)
    else findGapY (y2 :: rest)
  | _ => none

/-- `Math.max(...ys)` over a nonempty list (the source only applies it to the
nonempty `allYPositions`; the empty case is unreachable). -/
def listMaxQ : List ℚ → ℚ
  | [] => 0
  | y :: rest => rest.foldl max y

/-- The per-node placement search of `expandCanvas` (src/main.ts:496-564):
start from the ideal y; on conflict with an existing node at the target
column, try directly above the first conflicting node, then directly below,
then the first adequate gap between consecutive existing nodes, and finally
append past the bottom. -/
def bestYFor (existingNodesAtTargetX : List DNode) (idealY : ℚ) : ℚ :=
  match existingNodesAtTargetX.filter (conflictsWith idealY) with
  | [] => idealY
  | conflict :: _ =>
    let conflictY := conflict.y
    let tryAbove := conflictY - nodeHeight - verticalSpacing
    if (existingNodesAtTargetX.filter (conflictsWith tryAbove)).isEmpty then tryAbove
    else
      let tryBelow := conflictY + nodeHeight + verticalSpacing
      if (existingNodesAtTargetX.filter (conflictsWith tryBelow)).isEmpty then tryBelow
      else
        let allYPositions :=
          List.insertionSort (· ≤ ·) (existingNodesAtTargetX.map (fun n => n.y))
        match findGapY allYPositions with
        | some y => y
        | none => listMaxQ allYPositions + nodeHeight + verticalSpacing

/-- The `newConnections` query of `expandCanvas` (src/main.ts:447-449):
backlinks for a "left" expansion, forward links for a "right" expansion. -/
def newConnectionsFor (env : Env) (focusNote : Doc) (direction : Dir) : List Doc :=
  match direction with
  | .left => getBacklinks env focusNote
  | .right => getForwardLinks env focusNote

/-- `new Set(canvasData.nodes.map((n) => n.file))` (src/main.ts:454). -/
def existingPathsOf (canvasData : Diagram) : List String :=
  canvasData.nodes.map (fun n => n.file)

/-- `nodesToAdd` (src/main.ts:462): the queried links whose document is not
already a node of the canvas. -/
def nodesToAddFor (env : Env) (canvasData : Diagram) (focusNote : Doc)
    (direction : Dir) : List Doc :=
  (newConnectionsFor env focusNote direction).filter (fun l =>
    !(existingPathsOf canvasData).contains l.path)

/-- `targetX` (src/main.ts:477): one `horizontalSpacing` to the chosen side of
the focus node. -/
def targetXOf (focusNode : DNode) (direction : Dir) : ℚ :=
  focusNode.x +
    (match direction with
     | .left => -horizontalSpacing
     | .right => horizontalSpacing)

/-- `existingNodesAtTargetX` (src/main.ts:480-483): the canvas nodes whose x
lies within `nodeWidth + 100` of the target column. -/
def bandOf (canvasData : Diagram) (targetX : ℚ) : List DNode :=
  canvasData.nodes.filter (fun n => decide (|n.x - targetX| < nodeWidth + 100))

/-- `newNodePositions` (src/main.ts:488-565): the ideal ys center the `k` new
nodes around the focus node, spaced by `verticalSpacing`; each is then
conflict-resolved by `bestYFor` against the existing nodes at the column. -/
def newNodePositionsFor (existingNodesAtTargetX : List DNode) (focusNode : DNode)
    (targetX : ℚ) (k : Nat) : List (ℚ × ℚ) :=
  let idealStartY := focusNode.y - ((k : ℚ) - 1) * verticalSpacing / 2
  (List.range k).map (fun i =>
    (targetX, bestYFor existingNodesAtTargetX (idealStartY + (i : ℚ) * verticalSpacing)))

/-- The new-node records of src/main.ts:568-583, one per entry of
`nodesToAdd`, paired positionally with `newNodePositions`. -/
def newNodesFor (mkNodeId : Nat → String) (nodesToAdd : List Doc)
    (positions : List (ℚ × ℚ)) : List DNode :=
  (nodesToAdd.zip positions).enum.map (fun p =>
    (⟨mkNodeId p.1, "file", p.2.1.path, p.2.2.1, p.2.2.2, nodeWidth, nodeHeight⟩ : DNode))

/-- `direction === 'left' ? newNode.id : focusNode.id` (src/main.ts:588). -/
def edgeSourceId (direction : Dir) (newId focusId : String) : String :=
  match direction with
  | .left => newId
  | .right => focusId

/-- `direction === 'left' ? focusNode.id : newNode.id` (src/main.ts:590). -/
def edgeTargetId (direction : Dir) (newId focusId : String) : String :=
  match direction with
  | .left => focusId
  | .right => newId

/-- The new-edge records of src/main.ts:585-595, one per new node: for a
"left" expansion the new node is the edge source and the focus node the
target, for "right" the reverse; sides are always right → left. -/
def newEdgesFor (mkEdgeId : Nat → String) (direction : Dir) (focusNode : DNode)
    (newNodes : List DNode) : List DEdge :=
  newNodes.enum.map (fun p =>
    (⟨mkEdgeId p.1, edgeSourceId direction p.2.id focusNode.id, "right",
      edgeTargetId direction p.2.id focusNode.id, "left"⟩ : DEdge))

/-- `expandCanvas` (src/main.ts:433-622) as a state transformer on the
persisted canvas. The input `parsed` is the JSON-parse result of the current
canvas file (`none` = parse failure, line 439-444); the output is `some` of
the content written back by `vault.modify` (line 600-603), or `none` when the
function returns without writing (parse failure, no new nodes after
filtering, or missing focus node). `mkNodeId`/`mkEdgeId` stand for the fresh
`Date.now()`-`Math.random()` identifiers of the i-th created node/edge, and
`now` for the `new Date().toISOString()` written into `meta.modified`. -/
def expandCanvas (env : Env) (parsed : Option Diagram) (focusNote : Doc)
    (direction : Dir) (mkNodeId mkEdgeId : Nat → String) (now : String) :
    Option Diagram :=
  match parsed with
  | none => none
  | some canvasData =>
    let nodesToAdd := nodesToAddFor env canvasData focusNote direction
    if nodesToAdd.isEmpty then none
    else
      match canvasData.nodes.find? (fun n => n.file == focusNote.path) with
      | none => none
      | some focusNode =>
        let targetX := targetXOf focusNode direction
        let existingNodesAtTargetX := bandOf canvasData targetX
        let newNodePositions :=
          newNodePositionsFor existingNodesAtTargetX focusNode targetX nodesToAdd.length
        let newNodes := newNodesFor mkNodeId nodesToAdd newNodePositions
        let newEdges := newEdgesFor mkEdgeId direction focusNode newNodes
        if newNodes.isEmpty then none
        else
          some { nodes := canvasData.nodes ++ newNodes
                 edges := canvasData.edges ++ newEdges
                 meta := { created := canvasData.meta.created, modified := now } }

set_option allowUnsafeReducibility true

attribute [semireducible] Rat.add Rat.sub Rat.mul Rat.div Rat.neg Rat.inv

/-- Inversion of a successful expansion: when `expandCanvas` writes a result,
the focus node was found and the result is exactly the input canvas with the
computed new nodes and edges appended and `meta.modified` refreshed. -/
theorem expandCanvas_some_inv (env : Env) (d : Diagram) (f : Doc) (dir : Dir)
    (mkN mkE : Nat → String) (now : String) (d1 : Diagram)
    (h : expandCanvas env (some d) f dir mkN mkE now = some d1) :
    ∃ focusNode,
      d.nodes.find? (fun n => n.file == f.path) = some focusNode ∧
      nodesToAddFor env d f dir ≠ [] ∧
      d1 = { nodes := d.nodes ++
               newNodesFor mkN (nodesToAddFor env d f dir)
                 (newNodePositionsFor (bandOf d (targetXOf focusNode dir)) focusNode
                   (targetXOf focusNode dir) (nodesToAddFor env d f dir).length)
             edges := d.edges ++
               newEdgesFor mkE dir focusNode
                 (newNodesFor mkN (nodesToAddFor env d f dir)
                   (newNodePositionsFor (bandOf d (targetXOf focusNode dir)) focusNode
                     (targetXOf focusNode dir) (nodesToAddFor env d f dir).length))
             meta := { created := d.meta.created, modified := now } } := by
  unfold expandCanvas at h
  simp only at h
  split at h
  · exact absurd h (by simp)
  · rename_i hne
    split at h
    · exact absurd h (by simp)
    · rename_i focusNode hfind
      split at h
      · exact absurd h (by simp)
      · rename_i hnn
        refine ⟨focusNode, hfind, ?_, ?_⟩
        · intro hnil
          rw [hnil] at hne
          simp at hne
        · exact (Option.some.injEq _ _ ▸ h).symm

/-- The file paths of the nodes created by one expansion are exactly the paths
of the filtered `nodesToAdd` list, provided positions were generated for all
of them. -/
theorem newNodesFor_map_file (mk : Nat → String) (nta : List Doc)
    (pos : List (ℚ × ℚ)) (hlen : nta.length ≤ pos.length) :
    (newNodesFor mk nta pos).map (fun n => n.file) = nta.map (fun l => l.path) := by
  unfold newNodesFor
  rw [List.map_map]
  have h1 : ((fun n => n.file) ∘ fun p : Nat × (Doc × (ℚ × ℚ)) =>
      (⟨mk p.1, "file", p.2.1.path, p.2.2.1, p.2.2.2, nodeWidth, nodeHeight⟩ : DNode)) =
      (fun q : Doc × (ℚ × ℚ) => q.1.path) ∘ Prod.snd := rfl
  have h2 : (fun q : Doc × (ℚ × ℚ) => q.1.path) =
      (fun l : Doc => l.path) ∘ Prod.fst := rfl
  rw [h1, ← List.map_map, List.enum_map_snd, h2, ← List.map_map,
    List.map_fst_zip _ _ hlen]

/-- `newNodePositionsFor` produces one position per requested node. -/
theorem newNodePositionsFor_length (ex : List DNode) (fn : DNode) (tx : ℚ) (k : Nat) :
    (newNodePositionsFor ex fn tx k).length = k := by
  unfold newNodePositionsFor
  simp [Function.comp_def]

/-- C7. Every abort path of `expandCanvas` performs no write: a persisted
diagram that fails to parse (`parsed = none`), a filtered link list that is
empty, and a focus document with no node in the diagram each make the
operation return without modifying the canvas file (result `none` = no
`vault.modify` call, so the persisted diagram is left entirely unchanged). -/
theorem C7_abort_paths_are_noops (env : Env) (f : Doc) (dir : Dir)
    (mkN mkE : Nat → String) (now : String) :
    expandCanvas env none f dir mkN mkE now = none ∧
    (∀ d : Diagram, nodesToAddFor env d f dir = [] →
      expandCanvas env (some d) f dir mkN mkE now = none) ∧
    (∀ d : Diagram, d.nodes.find? (fun n => n.file == f.path) = none →
      expandCanvas env (some d) f dir mkN mkE now = none) := by
  refine ⟨rfl, ?_, ?_⟩
  · intro d hd
    unfold expandCanvas
    simp [hd]
  · intro d hd
    unfold expandCanvas
    simp only [hd]
    split
    · rfl
    · rfl

/-- Closed instance of the C7 no-op paths: a parse failure, a diagram already
containing the only linked document, and a diagram missing the focus node. -/
theorem C7_abort_paths_witness :
    expandCanvas ⟨[("F.md", ["E.md"])], [⟨"F.md", "F"⟩, ⟨"E.md", "E"⟩]⟩ none
      ⟨"F.md", "F"⟩ .right (fun i => "n" ++ toString i) (fun i => "e" ++ toString i)
      "t" = none ∧
    expandCanvas ⟨[("F.md", ["E.md"])], [⟨"F.md", "F"⟩, ⟨"E.md", "E"⟩]⟩
      (some ⟨[⟨"a", "file", "F.md", 0, 0, 300, 200⟩, ⟨"b", "file", "E.md", 450, 0, 300, 200⟩],
        [], ⟨"t0", "t0"⟩⟩)
      ⟨"F.md", "F"⟩ .right (fun i => "n" ++ toString i) (fun i => "e" ++ toString i)
      "t" = none ∧
    expandCanvas ⟨[("F.md", ["E.md"])], [⟨"F.md", "F"⟩, ⟨"E.md", "E"⟩]⟩
      (some ⟨[⟨"a", "file", "G.md", 0, 0, 300, 200⟩], [], ⟨"t0", "t0"⟩⟩)
      ⟨"F.md", "F"⟩ .right (fun i => "n" ++ toString i) (fun i => "e" ++ toString i)
      "t" = none := by
  refine ⟨(C7_abort_paths_are_noops _ _ _ _ _ _).1,
    (C7_abort_paths_are_noops _ _ _ _ _ _).2.1 _ (by decide),
    (C7_abort_paths_are_noops _ _ _ _ _ _).2.2 _ (by decide)⟩

/-- C9. Expansion is append-only: every node and edge of the input diagram is
still present, unmodified and in place, as a prefix of the written diagram;
the operation only appends new nodes and edges, carries `meta.created` over,
and refreshes `meta.modified` to the current timestamp. -/
theorem C9_expand_append_only (env : Env) (d : Diagram) (f : Doc) (dir : Dir)
    (mkN mkE : Nat → String) (now : String) (d1 : Diagram)
    (h : expandCanvas env (some d) f dir mkN mkE now = some d1) :
    (∃ tl, d1.nodes = d.nodes ++ tl) ∧ (∃ tl, d1.edges = d.edges ++ tl) ∧
    d1.meta.created = d.meta.created ∧ d1.meta.modified = now := by
  obtain ⟨fn, hfind, hne, hd1⟩ := expandCanvas_some_inv env d f dir mkN mkE now d1 h
  subst hd1
  exact ⟨⟨_, rfl⟩, ⟨_, rfl⟩, rfl, rfl⟩

/-- An expansion whose filtered link list is empty writes nothing
(src/main.ts:464-467). -/
theorem expandCanvas_none_of_no_new (env : Env) (d : Diagram) (f : Doc)
    (dir : Dir) (mkN mkE : Nat → String) (now : String)
    (hd : nodesToAddFor env d f dir = []) :
    expandCanvas env (some d) f dir mkN mkE now = none := by
  unfold expandCanvas
  simp [hd]

/-- An expansion whose focus document has no node in the diagram writes
nothing (src/main.ts:470-474). -/
theorem expandCanvas_none_of_no_focus (env : Env) (d : Diagram) (f : Doc)
    (dir : Dir) (mkN mkE : Nat → String) (now : String)
    (hd : d.nodes.find? (fun n => n.file == f.path) = none) :
    expandCanvas env (some d) f dir mkN mkE now = none := by
  unfold expandCanvas
  simp only [hd]
  split
  · rfl
  · rfl

/-- Pairing a list with the map over its enumeration. -/
theorem forall2_enumFrom_map {α β : Type} (P : α → β → Prop) (f : Nat × α → β)
    (h : ∀ i a, P a (f (i, a))) :
    ∀ (l : List α) (i : Nat), List.Forall₂ P l ((l.enumFrom i).map f)
  | [], _ => by simp
  | a :: t, i => by
    rw [List.enumFrom_cons]
    exact List.Forall₂.cons (h i a) (forall2_enumFrom_map P f h t (i + 1))

/-- C8. A successful expansion adds exactly one edge per newly added node
(the appended node and edge lists are in bijection, positionally), each edge
connecting the focus node to the new node: for "left" the new node is the
edge's `fromNode` and the focus node its `toNode`, for "right" the reverse,
and every added edge has `fromSide` "right" and `toSide` "left". -/
theorem C8_one_edge_per_new_node (env : Env) (d : Diagram) (f : Doc) (dir : Dir)
    (mkN mkE : Nat → String) (now : String) (d1 : Diagram)
    (h : expandCanvas env (some d) f dir mkN mkE now = some d1) :
    ∃ focusNode,
      d.nodes.find? (fun n => n.file == f.path) = some focusNode ∧
      List.Forall₂ (fun (n : DNode) (e : DEdge) =>
          e.fromSide = "right" ∧ e.toSide = "left" ∧
          e.fromNode = edgeSourceId dir n.id focusNode.id ∧
          e.toNode = edgeTargetId dir n.id focusNode.id)
        (d1.nodes.drop d.nodes.length) (d1.edges.drop d.edges.length) := by
  obtain ⟨fn, hfind, _, hd1⟩ := expandCanvas_some_inv env d f dir mkN mkE now d1 h
  subst hd1
  refine ⟨fn, hfind, ?_⟩
  simp only [List.drop_left]
  unfold newEdgesFor
  exact forall2_enumFrom_map _ _ (fun i a => ⟨rfl, rfl, rfl, rfl⟩) _ 0

/-- Closed instance of C8: expanding a one-node canvas rightward with one new
link produces one new node and one matching new edge. -/
theorem C8_one_edge_witness :
    ∃ focusNode,
      (⟨[⟨"center-node", "file", "F.md", 400, 300, 300, 200⟩], [],
        ⟨"t0", "t0"⟩⟩ : Diagram).nodes.find? (fun n => n.file == "F.md") = some focusNode ∧
      List.Forall₂ (fun (n : DNode) (e : DEdge) =>
          e.fromSide = "right" ∧ e.toSide = "left" ∧
          e.fromNode = edgeSourceId .right n.id focusNode.id ∧
          e.toNode = edgeTargetId .right n.id focusNode.id)
        ((⟨[⟨"center-node", "file", "F.md", 400, 300, 300, 200⟩,
            ⟨"newnode-0", "file", "E.md", 850, 300, 300, 200⟩],
           [⟨"newedge-0", "center-node", "right", "newnode-0", "left"⟩],
           ⟨"t0", "t1"⟩⟩ : Diagram).nodes.drop
          (⟨[⟨"center-node", "file", "F.md", 400, 300, 300, 200⟩], [],
            ⟨"t0", "t0"⟩⟩ : Diagram).nodes.length)
        ((⟨[⟨"center-node", "file", "F.md", 400, 300, 300, 200⟩,
            ⟨"newnode-0", "file", "E.md", 850, 300, 300, 200⟩],
           [⟨"newedge-0", "center-node", "right", "newnode-0", "left"⟩],
           ⟨"t0", "t1"⟩⟩ : Diagram).edges.drop
          (⟨[⟨"center-node", "file", "F.md", 400, 300, 300, 200⟩], [],
            ⟨"t0", "t0"⟩⟩ : Diagram).edges.length) :=
  C8_one_edge_per_new_node ⟨[("F.md", ["E.md"])], [⟨"F.md", "F"⟩, ⟨"E.md", "E"⟩]⟩
    ⟨[⟨"center-node", "file", "F.md", 400, 300, 300, 200⟩], [], ⟨"t0", "t0"⟩⟩
    ⟨"F.md", "F"⟩ .right (fun i => "newnode-" ++ toString i)
    (fun i => "newedge-" ++ toString i) "t1"
    ⟨[⟨"center-node", "file", "F.md", 400, 300, 300, 200⟩,
      ⟨"newnode-0", "file", "E.md", 850, 300, 300, 200⟩],
     [⟨"newedge-0", "center-node", "right", "newnode-0", "left"⟩], ⟨"t0", "t1"⟩⟩
    (by decide)

/-- Closed instance of C9: expanding a one-node canvas rightward appends the
new node and edge after the existing ones and refreshes `meta.modified`. -/
theorem C9_expand_append_only_witness :
    (∃ tl, (⟨[⟨"center-node", "file", "F.md", 400, 300, 300, 200⟩,
              ⟨"newnode-0", "file", "E.md", 850, 300, 300, 200⟩],
             [⟨"newedge-0", "center-node", "right", "newnode-0", "left"⟩],
             ⟨"t0", "t1"⟩⟩ : Diagram).nodes =
        (⟨[⟨"center-node", "file", "F.md", 400, 300, 300, 200⟩], [],
          ⟨"t0", "t0"⟩⟩ : Diagram).nodes ++ tl) ∧
    (∃ tl, (⟨[⟨"center-node", "file", "F.md", 400, 300, 300, 200⟩,
              ⟨"newnode-0", "file", "E.md", 850, 300, 300, 200⟩],
             [⟨"newedge-0", "center-node", "right", "newnode-0", "left"⟩],
             ⟨"t0", "t1"⟩⟩ : Diagram).edges =
        (⟨[⟨"center-node", "file", "F.md", 400, 300, 300, 200⟩], [],
          ⟨"t0", "t0"⟩⟩ : Diagram).edges ++ tl) ∧
    (⟨[⟨"center-node", "file", "F.md", 400, 300, 300, 200⟩,
       ⟨"newnode-0", "file", "E.md", 850, 300, 300, 200⟩],
      [⟨"newedge-0", "center-node", "right", "newnode-0", "left"⟩],
      ⟨"t0", "t1"⟩⟩ : Diagram).meta.created =
      (⟨[⟨"center-node", "file", "F.md", 400, 300, 300, 200⟩], [],
        ⟨"t0", "t0"⟩⟩ : Diagram).meta.created ∧
    (⟨[⟨"center-node", "file", "F.md", 400, 300, 300, 200⟩,
       ⟨"newnode-0", "file", "E.md", 850, 300, 300, 200⟩],
      [⟨"newedge-0", "center-node", "right", "newnode-0", "left"⟩],
      ⟨"t0", "t1"⟩⟩ : Diagram).meta.modified = "t1" :=
  C9_expand_append_only ⟨[("F.md", ["E.md"])], [⟨"F.md", "F"⟩, ⟨"E.md", "E"⟩]⟩
    ⟨[⟨"center-node", "file", "F.md", 400, 300, 300, 200⟩], [], ⟨"t0", "t0"⟩⟩
    ⟨"F.md", "F"⟩ .right (fun i => "newnode-" ++ toString i)
    (fun i => "newedge-" ++ toString i) "t1"
    ⟨[⟨"center-node", "file", "F.md", 400, 300, 300, 200⟩,
      ⟨"newnode-0", "file", "E.md", 850, 300, 300, 200⟩],
     [⟨"newedge-0", "center-node", "right", "newnode-0", "left"⟩], ⟨"t0", "t1"⟩⟩
    (by decide)

/-- C6. Expansion is idempotent with respect to already-present documents:
after a successful expansion, repeating the same call (same environment,
focus document and direction, hence the same unfiltered link list) filters
out every link — each linked document is now a node of the diagram — and
returns without writing, leaving the diagram unchanged. -/
theorem C6_expand_idempotent (env : Env) (d : Diagram) (f : Doc) (dir : Dir)
    (mkN mkE : Nat → String) (now : String) (mkN2 mkE2 : Nat → String)
    (now2 : String) (d1 : Diagram)
    (h : expandCanvas env (some d) f dir mkN mkE now = some d1) :
    expandCanvas env (some d1) f dir mkN2 mkE2 now2 = none := by
  obtain ⟨fn, hfind, _, hd1⟩ := expandCanvas_some_inv env d f dir mkN mkE now d1 h
  have hlen : (nodesToAddFor env d f dir).length ≤
      (newNodePositionsFor (bandOf d (targetXOf fn dir)) fn (targetXOf fn dir)
        (nodesToAddFor env d f dir).length).length := by
    rw [newNodePositionsFor_length]
  have hempty : nodesToAddFor env d1 f dir = [] := by
    unfold nodesToAddFor
    rw [List.filter_eq_nil_iff]
    intro l hl
    simp only [Bool.not_eq_true', Bool.not_eq_false]
    have hmem : l.path ∈ existingPathsOf d1 := by
      rw [hd1]
      unfold existingPathsOf
      simp only [List.map_append]
      rw [newNodesFor_map_file _ _ _ hlen]
      by_cases hc : l.path ∈ existingPathsOf d
      · exact List.mem_append_left _ hc
      · refine List.mem_append_right _ ?_
        have hlmem : l ∈ nodesToAddFor env d f dir := by
          unfold nodesToAddFor
          rw [List.mem_filter]
          refine ⟨hl, ?_⟩
          simp only [Bool.not_eq_true']
          simpa using hc
        exact List.mem_map.mpr ⟨l, hlmem, rfl⟩
    simpa using hmem
  exact expandCanvas_none_of_no_new env d1 f dir mkN2 mkE2 now2 hempty

/-- Closed instance of C6: after the rightward expansion of the one-node
F-canvas under the same link environment, repeating the call is a no-op. -/
theorem C6_expand_idempotent_witness :
    expandCanvas ⟨[("F.md", ["E.md"])], [⟨"F.md", "F"⟩, ⟨"E.md", "E"⟩]⟩
      (some ⟨[⟨"center-node", "file", "F.md", 400, 300, 300, 200⟩,
              ⟨"newnode-0", "file", "E.md", 850, 300, 300, 200⟩],
             [⟨"newedge-0", "center-node", "right", "newnode-0", "left"⟩],
             ⟨"t0", "t1"⟩⟩)
      ⟨"F.md", "F"⟩ .right (fun i => "x" ++ toString i) (fun i => "y" ++ toString i)
      "t3" = none :=
  C6_expand_idempotent ⟨[("F.md", ["E.md"])], [⟨"F.md", "F"⟩, ⟨"E.md", "E"⟩]⟩
    ⟨[⟨"center-node", "file", "F.md", 400, 300, 300, 200⟩], [], ⟨"t0", "t0"⟩⟩
    ⟨"F.md", "F"⟩ .right (fun i => "newnode-" ++ toString i)
    (fun i => "newedge-" ++ toString i) "t1"
    (fun i => "x" ++ toString i) (fun i => "y" ++ toString i) "t3"
    ⟨[⟨"center-node", "file", "F.md", 400, 300, 300, 200⟩,
      ⟨"newnode-0", "file", "E.md", 850, 300, 300, 200⟩],
     [⟨"newedge-0", "center-node", "right", "newnode-0", "left"⟩], ⟨"t0", "t1"⟩⟩
    (by decide)

/-- The overlap condition claimed in C4, as a checkable predicate on a
diagram: some pair of distinct nodes whose x coordinates lie within the same
column tolerance band (`nodeWidth + 100`) has vertically overlapping padded
bounding boxes (`nodeHeight` plus the 20-unit buffer on each side). -/
def hasOverlappingColumnPair (d : Diagram) : Bool :=
  d.nodes.enum.any (fun p =>
    d.nodes.enum.any (fun q =>
      decide (p.1 < q.1) &&
      decide (|p.2.x - q.2.x| < nodeWidth + 100) &&
      decide (p.2.y - nodeHeight / 2 - 20 < q.2.y + nodeHeight / 2 + 20 ∧
              p.2.y + nodeHeight / 2 + 20 > q.2.y - nodeHeight / 2 - 20)))

/-- C4 is false as stated: a from-scratch build of a note `F` with no links,
followed by a rightward expansion adding `E`, followed by a second rightward
expansion adding `C` and `D` (after `F` gained links to them), leaves the
diagram with two nodes at the identical position `(850, -180)` — the two
nodes added within the second call, whose padded boxes overlap completely.
The per-node conflict search only consults nodes already in the diagram when
the call starts, so the second new node reuses the slot of the first. -/
theorem C4_counterexample :
    ((expandCanvas
        ⟨[("F.md", ["E.md", "C.md", "D.md"])],
         [⟨"F.md", "F"⟩, ⟨"E.md", "E"⟩, ⟨"C.md", "C"⟩, ⟨"D.md", "D"⟩]⟩
        (expandCanvas ⟨[("F.md", ["E.md"])], [⟨"F.md", "F"⟩, ⟨"E.md", "E"⟩]⟩
          (some (createCanvasContent ⟨[], [⟨"F.md", "F"⟩]⟩ ⟨800, 600, 1⟩
            ⟨"F.md", "F"⟩ "t0"))
          ⟨"F.md", "F"⟩ .right (fun i => "newnode-" ++ toString i)
          (fun i => "newedge-" ++ toString i) "t1")
        ⟨"F.md", "F"⟩ .right (fun i => "nn2-" ++ toString i)
        (fun i => "ne2-" ++ toString i) "t2").map
      (fun d => (hasOverlappingColumnPair d,
        (d.nodes.drop 2).map (fun n => (n.x, n.y))))) =
      some (true, [(850, -180), (850, -180)]) := by
  decide

/-- C1 is false as stated: in the scenario (seed `A.md` whose only link is a
forward link to `B.md`, depth 1, default 800 × 600 canvas) the build places
`B` at x = 1300 = canvasWidth / 2 + 2 · horizontalSpacing, not one
`horizontalSpacing` to the right of the center (which would be 850). -/
theorem C1_counterexample :
    ((createCanvasContent ⟨[("A.md", ["B.md"])], [⟨"A.md", "A"⟩, ⟨"B.md", "B"⟩]⟩
        ⟨800, 600, 1⟩ ⟨"A.md", "A"⟩ "t").nodes.find?
      (fun n => n.file == "B.md")).map (fun n => (n.x, n.y)) = some (1300, 300) ∧
    (1300 : ℚ) ≠ 800 / 2 + horizontalSpacing := by
  decide

/-- C2 is false as stated: for the scenario seed `A.md` → `B.md`, the layer
list returned by `organizeNodesIntoLayers` contains the seed document (the
synthetic center entry is pushed into the level-0 backlink layer and the
level-0 forward layer, and both survive the nonempty filter). -/
theorem C2_counterexample :
    ¬ (∀ layer ∈ organizeNodesIntoLayers ⟨"A.md", "A"⟩
          (getAllNodesAndConnections
            ⟨[("A.md", ["B.md"])], [⟨"A.md", "A"⟩, ⟨"B.md", "B"⟩]⟩
            ⟨"A.md", "A"⟩ 1).nodes
          (getAllNodesAndConnections
            ⟨[("A.md", ["B.md"])], [⟨"A.md", "A"⟩, ⟨"B.md", "B"⟩]⟩
            ⟨"A.md", "A"⟩ 1).conns,
        ∀ n ∈ layer, n.doc.path ≠ "A.md") := by
  decide

/-- C5 is false as stated: when a document links to itself
(`resolvedLinks["A.md"]["A.md"]` set), exploration records the self-loop
`A.md → A.md` in the connection set — nothing filters it there (only the
later diagram-edge creation drops self-loops). -/
theorem C5_counterexample :
    ¬ (∀ e ∈ (getAllNodesAndConnections ⟨[("A.md", ["A.md"])], [⟨"A.md", "A"⟩]⟩
          ⟨"A.md", "A"⟩ 1).conns, e.1 ∉ e.2) := by
  decide

/-- The traversal invariant: node paths are duplicate-free and every emitted
node's path has been marked visited. -/
def ExploreWF (st : St) : Prop :=
  (st.nodes.map (fun n => n.doc.path)).Nodup ∧
  ∀ n ∈ st.nodes, n.doc.path ∈ st.visited

/-- The forward-link loop preserves the traversal invariant: a node is pushed
only when its path is unvisited, and the path is marked visited at the same
time. -/
theorem goFwdLinks_wf (sub : Doc → St → St)
    (hsub : ∀ f s, ExploreWF s → ExploreWF (sub f s)) (d : Nat) (p : String) :
    ∀ (ls : List Doc) (st : St), ExploreWF st → ExploreWF (goFwdLinks sub d p ls st) := by
  intro ls
  induction ls with
  | nil => intro st h; exact h
  | cons l rest ih =>
    intro st h
    rw [goFwdLinks]
    apply ih
    by_cases hv : l.path ∈ st.visited
    · simpa [hv] using h
    · simp only [hv, if_neg, not_false_iff]
      apply hsub
      refine ⟨?_, ?_⟩
      · simp only [List.map_append, List.map_cons, List.map_nil]
        rw [List.nodup_append]
        refine ⟨h.1, List.nodup_singleton _, ?_⟩
        intro a ha hb
        simp only [List.mem_singleton] at hb
        subst hb
        obtain ⟨n, hn, hnp⟩ := List.mem_map.mp ha
        exact hv (hnp ▸ h.2 n hn)
      · intro n hn
        rcases List.mem_append.mp hn with hn | hn
        · exact List.mem_append_left _ (h.2 n hn)
        · simp only [List.mem_singleton] at hn
          subst hn
          exact List.mem_append_right _ (List.mem_singleton_self _)

/-- The backlink loop preserves the traversal invariant. -/
theorem goBwdLinks_wf (sub : Doc → St → St)
    (hsub : ∀ f s, ExploreWF s → ExploreWF (sub f s)) (d : Nat) (p : String) :
    ∀ (ls : List Doc) (st : St), ExploreWF st → ExploreWF (goBwdLinks sub d p ls st) := by
  intro ls
  induction ls with
  | nil => intro st h; exact h
  | cons l rest ih =>
    intro st h
    rw [goBwdLinks]
    apply ih
    by_cases hv : l.path ∈ st.visited
    · simpa [hv] using h
    · simp only [hv, if_neg, not_false_iff]
      apply hsub
      refine ⟨?_, ?_⟩
      · simp only [List.map_append, List.map_cons, List.map_nil]
        rw [List.nodup_append]
        refine ⟨h.1, List.nodup_singleton _, ?_⟩
        intro a ha hb
        simp only [List.mem_singleton] at hb
        subst hb
        obtain ⟨n, hn, hnp⟩ := List.mem_map.mp ha
        exact hv (hnp ▸ h.2 n hn)
      · intro n hn
        rcases List.mem_append.mp hn with hn | hn
        · exact List.mem_append_left _ (h.2 n hn)
        · simp only [List.mem_singleton] at hn
          subst hn
          exact List.mem_append_right _ (List.mem_singleton_self _)

/-- The bounded traversal preserves the invariant at every depth. -/
theorem exploreDoc_wf (env : Env) (fuel : Nat) :
    ∀ (d : Nat) (file : Doc) (st : St),
      ExploreWF st → ExploreWF (exploreDoc env fuel d file st) := by
  induction fuel with
  | zero => intro d file st h; exact h
  | succ fuel ih =>
    intro d file st h
    rw [exploreDoc]
    apply goBwdLinks_wf _ (fun f s hs => ih (d + 1) f s hs)
    apply goFwdLinks_wf _ (fun f s hs => ih (d + 1) f s hs)
    unfold initConns
    split
    · exact h
    · exact h

/-- The full exploration state is well formed. -/
theorem getAllNodes_wf (env : Env) (seed : Doc) (depth : Nat) :
    ExploreWF (getAllNodesAndConnections env seed depth) := by
  unfold getAllNodesAndConnections exploreAllConnections
  apply exploreDoc_wf
  exact ⟨List.nodup_singleton _, by intro n hn; simp at hn; simp [hn]⟩

/-- C3. For every finite link environment (cyclic graphs included) and every
depth bound, the exploration is a total function — the embedding's fuel is
the source's depth bound, which the visited-set check makes sufficient — and
the node list it returns contains no two entries with the same document path:
each document appears at most once, with the first-discovered level and
direction. -/
theorem C3_explore_no_duplicates (env : Env) (seed : Doc) (depth : Nat) :
    ((getAllNodesAndConnections env seed depth).nodes.map
      (fun n => n.doc.path)).Nodup :=
  (getAllNodes_wf env seed depth).1

/-- A link environment with no self-link: no `resolvedLinks` entry lists its
own source path among its targets. -/
def selfLinkFreeEnv (env : Env) : Bool :=
  env.resolvedLinks.all (fun e => !e.2.contains e.1)

/-- `getFile` only returns a file at the requested path. -/
theorem getFile_path (env : Env) (p : String) (f : Doc)
    (h : getFile env p = some f) : f.path = p := by
  unfold getFile at h
  simpa using List.find?_some h

/-- In a self-link-free environment, no document is among its own forward
links. -/
theorem getForwardLinks_ne_self (env : Env) (h : selfLinkFreeEnv env = true)
    (file l : Doc) (hl : l ∈ getForwardLinks env file) : l.path ≠ file.path := by
  unfold getForwardLinks at hl
  cases hfind : env.resolvedLinks.find? (fun e => e.1 == file.path) with
  | none =>
    rw [hfind] at hl
    exact absurd hl (List.not_mem_nil _)
  | some e =>
    rw [hfind] at hl
    have hl' : l ∈ e.2.filterMap (getFile env) := hl
    obtain ⟨t, ht, hget⟩ := List.mem_filterMap.mp hl'
    have hpt : l.path = t := getFile_path env t l hget
    have he1 : e.1 = file.path := by simpa using List.find?_some hfind
    have hmem : e ∈ env.resolvedLinks := List.mem_of_find?_eq_some hfind
    have hnc : e.1 ∉ e.2 := by
      have := List.all_eq_true.mp h e hmem
      simpa using this
    intro hcontra
    exact hnc (he1 ▸ (hcontra ▸ hpt ▸ ht))

/-- In a self-link-free environment, no document is among its own backlinks. -/
theorem getBacklinks_ne_self (env : Env) (h : selfLinkFreeEnv env = true)
    (file l : Doc) (hl : l ∈ getBacklinks env file) : l.path ≠ file.path := by
  unfold getBacklinks at hl
  obtain ⟨e, hmem, hget⟩ := List.mem_filterMap.mp hl
  by_cases hin : file.path ∈ e.2
  · rw [if_pos hin] at hget
    have hpt : l.path = e.1 := getFile_path env e.1 l hget
    have hnc : e.1 ∉ e.2 := by
      have := List.all_eq_true.mp h e hmem
      simpa using this
    intro hcontra
    exact hnc (hpt ▸ hcontra ▸ hin)
  · rw [if_neg hin] at hget
    exact absurd hget (by simp)

/-- The connection map has no self-loop: no source maps to a target set
containing itself. -/
def NoSelfLoops (c : List (String × List String)) : Prop :=
  ∀ e ∈ c, e.1 ∉ e.2

/-- Setting a key to a value set not containing it preserves the no-self-loop
invariant. -/
theorem connsSet_noself (k : String) (v : List String)
    (c : List (String × List String)) (hv : k ∉ v) (hc : NoSelfLoops c) :
    NoSelfLoops (connsSet k v c) := by
  unfold connsSet
  split
  · intro e' he'
    obtain ⟨e, he, hee⟩ := List.mem_map.mp he'
    by_cases hk : (e.1 == k) = true
    · rw [if_pos hk] at hee
      subst hee
      simpa using (eq_of_beq hk ▸ hv)
    · rw [if_neg hk] at hee
      exact hee ▸ hc e he
  · intro e' he'
    rcases List.mem_append.mp he' with he' | he'
    · exact hc e' he'
    · simp only [List.mem_singleton] at he'
      subst he'
      exact hv

/-- Adding an edge from `k` to `v ≠ k` preserves the no-self-loop
invariant. -/
theorem connsAdd_noself (k v : String) (c : List (String × List String))
    (hkv : k ≠ v) (hc : NoSelfLoops c) : NoSelfLoops (connsAdd k v c) := by
  unfold connsAdd
  intro e' he'
  obtain ⟨e, he, hee⟩ := List.mem_map.mp he'
  by_cases hk : (e.1 == k) = true
  · rw [if_pos hk] at hee
    subst hee
    have hk' : e.1 = k := eq_of_beq hk
    by_cases hvin : v ∈ e.2
    · simpa [hvin] using hc e he
    · simp only [hvin, if_neg, not_false_iff]
      intro hin
      rcases List.mem_append.mp hin with hin | hin
      · exact hc e he hin
      · simp only [List.mem_singleton] at hin
        exact hkv (hk' ▸ hin)
  · rw [if_neg hk] at hee
    exact hee ▸ hc e he

/-- The forward-link loop preserves the no-self-loop invariant when none of
the processed links is the current file itself. -/
theorem goFwdLinks_noself (sub : Doc → St → St)
    (hsub : ∀ f s, NoSelfLoops s.conns → NoSelfLoops (sub f s).conns)
    (d : Nat) (p : String) :
    ∀ (ls : List Doc), (∀ l ∈ ls, l.path ≠ p) →
      ∀ (st : St), NoSelfLoops st.conns → NoSelfLoops (goFwdLinks sub d p ls st).conns := by
  intro ls
  induction ls with
  | nil => intro _ st h; exact h
  | cons l rest ih =>
    intro hls st h
    rw [goFwdLinks]
    apply ih (fun a ha => hls a (List.mem_cons_of_mem _ ha))
    have h1 : NoSelfLoops (connsAdd p l.path st.conns) :=
      connsAdd_noself _ _ _ (fun hc => hls l (List.mem_cons_self _ _) hc.symm) h
    by_cases hv : l.path ∈ st.visited
    · simpa [hv] using h1
    · simp only [hv, if_neg, not_false_iff]
      exact hsub _ _ (connsSet_noself _ _ _ (List.not_mem_nil _) h1)

/-- The backlink loop preserves the no-self-loop invariant when none of the
processed links is the current file itself. -/
theorem goBwdLinks_noself (sub : Doc → St → St)
    (hsub : ∀ f s, NoSelfLoops s.conns → NoSelfLoops (sub f s).conns)
    (d : Nat) (p : String) :
    ∀ (ls : List Doc), (∀ l ∈ ls, l.path ≠ p) →
      ∀ (st : St), NoSelfLoops st.conns → NoSelfLoops (goBwdLinks sub d p ls st).conns := by
  intro ls
  induction ls with
  | nil => intro _ st h; exact h
  | cons l rest ih =>
    intro hls st h
    rw [goBwdLinks]
    apply ih (fun a ha => hls a (List.mem_cons_of_mem _ ha))
    have hc1 : NoSelfLoops (if connsHas st.conns l.path then st.conns
        else connsSet l.path [] st.conns) := by
      split
      · exact h
      · exact connsSet_noself _ _ _ (List.not_mem_nil _) h
    have h1 : NoSelfLoops (connsAdd l.path p
        (if connsHas st.conns l.path then st.conns
         else connsSet l.path [] st.conns)) :=
      connsAdd_noself _ _ _ (hls l (List.mem_cons_self _ _)) hc1
    by_cases hv : l.path ∈ st.visited
    · simpa [hv] using h1
    · simp only [hv, if_neg, not_false_iff]
      exact hsub _ _ h1

/-- In a self-link-free environment, the bounded traversal preserves the
no-self-loop invariant at every depth. -/
theorem exploreDoc_noself (env : Env) (henv : selfLinkFreeEnv env = true)
    (fuel : Nat) :
    ∀ (d : Nat) (file : Doc) (st : St),
      NoSelfLoops st.conns → NoSelfLoops (exploreDoc env fuel d file st).conns := by
  induction fuel with
  | zero => intro d file st h; exact h
  | succ fuel ih =>
    intro d file st h
    rw [exploreDoc]
    apply goBwdLinks_noself _ (fun f s hs => ih (d + 1) f s hs) _ _ _
      (fun l hl => getBacklinks_ne_self env henv file l hl)
    apply goFwdLinks_noself _ (fun f s hs => ih (d + 1) f s hs) _ _ _
      (fun l hl => getForwardLinks_ne_self env henv file l hl)
    unfold initConns
    split
    · exact h
    · exact connsSet_noself _ _ _ (List.not_mem_nil _) h

/-- C5 amended. Provided no document's resolved links include the document
itself, the exploration's connection set contains no self-loop: no source
path maps to a target set containing that same path. (The counterexample
shows the proviso is needed: a self-linking document does put a self-loop in
the connection set.) -/
theorem C5_amended_no_self_loops (env : Env) (seed : Doc) (depth : Nat)
    (h : selfLinkFreeEnv env = true) :
    ∀ e ∈ (getAllNodesAndConnections env seed depth).conns, e.1 ∉ e.2 := by
  unfold getAllNodesAndConnections exploreAllConnections
  apply exploreDoc_noself env h
  intro e he
  simp only [List.mem_singleton] at he
  subst he
  exact List.not_mem_nil _

/-- Closed instance of the amended C5: in the self-link-free scenario
environment `A.md → B.md`, the recorded connection entry of `A.md` does not
target `A.md` itself. -/
theorem C5_amended_no_self_loops_witness :
    ("A.md" : String) ∉ ["B.md"] :=
  C5_amended_no_self_loops
    ⟨[("A.md", ["B.md"])], [⟨"A.md", "A"⟩, ⟨"B.md", "B"⟩]⟩
    ⟨"A.md", "A"⟩ 1 (by decide) ("A.md", ["B.md"]) (by decide)

/-- Every element of a list is bounded by the running fold of `max`. -/
theorem le_foldl_max (l : List ℚ) :
    ∀ (a : ℚ), a ≤ l.foldl max a ∧ ∀ z ∈ l, z ≤ l.foldl max a := by
  induction l with
  | nil => intro a; exact ⟨le_refl a, by simp⟩
  | cons b t ih =>
    intro a
    refine ⟨le_trans (le_max_left a b) (ih (max a b)).1, ?_⟩
    intro z hz
    rcases List.mem_cons.mp hz with hz | hz
    · subst hz
      exact le_trans (le_max_right a z) (ih (max a z)).1
    · exact (ih (max a b)).2 z hz

/-- `listMaxQ` bounds every element of the list. -/
theorem listMaxQ_ge (l : List ℚ) : ∀ z ∈ l, z ≤ listMaxQ l := by
  cases l with
  | nil => simp
  | cons y rest =>
    intro z hz
    rcases List.mem_cons.mp hz with hz | hz
    · subst hz
      exact (le_foldl_max rest z).1
    · exact (le_foldl_max rest y).2 z hz

/-- When the gap scan succeeds on an ascending list, the returned center is
at distance at least 480 above the list's head and at vertical distance at
least 220 from every listed coordinate (the padded no-conflict margin). -/
theorem findGapY_bounds (l : List ℚ) (hs : l.Sorted (· ≤ ·)) :
    ∀ y, findGapY l = some y →
      (∀ a, l.head? = some a → a ≤ y - 480) ∧
      (∀ z ∈ l, z ≤ y - 220 ∨ y + 220 ≤ z) := by
  induction l with
  | nil => intro y hy; simp [findGapY] at hy
  | cons y1 t ih =>
    cases t with
    | nil => intro y hy; simp [findGapY] at hy
    | cons y2 rest =>
      intro y hy
      have h12 : y1 ≤ y2 := List.rel_of_sorted_cons hs y2 (by simp)
      simp only [findGapY, nodeHeight, verticalSpacing] at hy
      split at hy
      · rename_i hgap
        have hyv : y1 + 200 / 2 + 280 + (y2 - 200 / 2 - 280 - (y1 + 200 / 2 + 280)) / 2 = y :=
          Option.some.inj hy
        constructor
        · intro a ha
          obtain rfl : y1 = a := by simpa using ha
          linarith
        · intro z hz
          rcases List.mem_cons.mp hz with hz | hz
          · subst hz
            left
            linarith
          · have h2z : y2 ≤ z := by
              rcases List.mem_cons.mp hz with hz | hz
              · subst hz; exact le_refl z
              · exact List.rel_of_sorted_cons (List.sorted_cons.mp hs).2 z hz
            right
            linarith
      · have ihh := ih (List.sorted_cons.mp hs).2 y hy
        have h2 : y2 ≤ y - 480 := ihh.1 y2 rfl
        constructor
        · intro a ha
          obtain rfl : y1 = a := by simpa using ha
          linarith
        · intro z hz
          rcases List.mem_cons.mp hz with hz | hz
          · subst hz
            left
            linarith
          · exact ihh.2 z hz

/-- A candidate y at vertical distance at least 220 from an existing node's
center does not conflict with it. -/
theorem conflictsWith_false_of_far (y : ℚ) (m : DNode)
    (h : m.y ≤ y - 220 ∨ y + 220 ≤ m.y) : conflictsWith y m = false := by
  unfold conflictsWith
  simp only [nodeHeight, decide_eq_false_iff_not, not_and, not_lt]
  intro h1
  rcases h with h | h
  · linarith
  · linarith

/-- The placement search of `expandCanvas` never returns a y that conflicts
with any of the existing nodes at the target column: the ideal slot is used
only when conflict-free, the above/below slots are re-checked against the
whole column, a selected gap center keeps the 220-unit margin to every
existing coordinate, and the append-past-the-bottom fallback clears the
maximum existing coordinate by 480. -/
theorem bestYFor_no_conflict (ex : List DNode) (idealY : ℚ) :
    ∀ m ∈ ex, conflictsWith (bestYFor ex idealY) m = false := by
  intro m hm
  unfold bestYFor
  split
  · rename_i heq
    exact Bool.eq_false_iff.mpr (List.filter_eq_nil_iff.mp heq m hm)
  · rename_i conflict crest heq
    dsimp only
    split
    · rename_i habove
      exact Bool.eq_false_iff.mpr
        (List.filter_eq_nil_iff.mp (List.isEmpty_iff.mp habove) m hm)
    · rename_i habove
      split
      · rename_i hbelow
        exact Bool.eq_false_iff.mpr
          (List.filter_eq_nil_iff.mp (List.isEmpty_iff.mp hbelow) m hm)
      · rename_i hbelow
        have hmem : m.y ∈ List.insertionSort (· ≤ ·) (ex.map (fun n => n.y)) :=
          (List.perm_insertionSort _ _).mem_iff.mpr (List.mem_map_of_mem _ hm)
        split
        · rename_i y hy
          exact conflictsWith_false_of_far y m
            ((findGapY_bounds _ (List.sorted_insertionSort _ _) y hy).2 m.y hmem)
        · apply conflictsWith_false_of_far
          left
          have hle := listMaxQ_ge _ m.y hmem
          simp only [nodeHeight, verticalSpacing]
          linarith

/-- Every node created by an expansion sits at the target column x and at a
y produced by the conflict search against the captured column nodes. -/
theorem mem_newNodes_shape (mkN : Nat → String) (nta : List Doc)
    (band : List DNode) (fn : DNode) (tx : ℚ) (k : Nat) (nn : DNode)
    (h : nn ∈ newNodesFor mkN nta (newNodePositionsFor band fn tx k)) :
    nn.x = tx ∧ ∃ idealY, nn.y = bestYFor band idealY := by
  unfold newNodesFor at h
  obtain ⟨p, hp, hpn⟩ := List.mem_map.mp h
  obtain ⟨j, dc, px, py⟩ := p
  have hsnd : (dc, px, py) ∈ (nta.zip (newNodePositionsFor band fn tx k)) := by
    have := List.mem_map_of_mem Prod.snd hp
    rwa [List.enum_map_snd] at this
  have hpos : (px, py) ∈ newNodePositionsFor band fn tx k :=
    (List.of_mem_zip hsnd).2
  unfold newNodePositionsFor at hpos
  obtain ⟨i, _, hip⟩ := List.mem_map.mp hpos
  have hpx : px = tx := (congrArg Prod.fst hip).symm
  have hpy : py = bestYFor band
      (fn.y - ((k : ℚ) - 1) * verticalSpacing / 2 + (i : ℚ) * verticalSpacing) :=
    (congrArg Prod.snd hip).symm

  refine ⟨?_, ?_⟩
  · rw [← hpn]
    exact hpx
  · refine ⟨fn.y - ((k : ℚ) - 1) * verticalSpacing / 2 + (i : ℚ) * verticalSpacing, ?_⟩
    rw [← hpn]
    exact hpy

/-- C4 amended. After a successful expansion, no newly added node's bounding
box overlaps the padded bounding box (height plus the 20-unit buffer on each
side — the code pads only the pre-existing node's box) of any node that was
in the diagram when the call started and whose x lies within the column
tolerance band of the new node. (Nodes added within the same call carry no
such guarantee — see the counterexample.) -/
theorem C4_amended_no_conflict_with_preexisting (env : Env) (d : Diagram)
    (f : Doc) (dir : Dir) (mkN mkE : Nat → String) (now : String) (d1 : Diagram)
    (h : expandCanvas env (some d) f dir mkN mkE now = some d1) :
    ∀ nn ∈ d1.nodes.drop d.nodes.length, ∀ m ∈ d.nodes,
      |m.x - nn.x| < nodeWidth + 100 → conflictsWith nn.y m = false := by
  obtain ⟨fn, hfind, _, hd1⟩ := expandCanvas_some_inv env d f dir mkN mkE now d1 h
  subst hd1
  simp only [List.drop_left]
  intro nn hnn m hm hband
  obtain ⟨hx, idealY, hy⟩ := mem_newNodes_shape mkN _ _ fn _ _ nn hnn
  have hmband : m ∈ bandOf d (targetXOf fn dir) := by
    unfold bandOf
    refine List.mem_filter.mpr ⟨hm, ?_⟩
    rw [← hx]
    exact decide_eq_true hband
  rw [hy]
  exact bestYFor_no_conflict _ idealY m hmband

/-- Closed instance of the amended C4: in the second expansion of the
counterexample trace, the first added node (at y = -180) does not conflict
with the padded box of the pre-existing column node `E` (at y = 300). -/
theorem C4_amended_no_conflict_witness :
    conflictsWith (-180) ⟨"newnode-0", "file", "E.md", 850, 300, 300, 200⟩ = false :=
  C4_amended_no_conflict_with_preexisting
    ⟨[("F.md", ["E.md", "C.md", "D.md"])],
     [⟨"F.md", "F"⟩, ⟨"E.md", "E"⟩, ⟨"C.md", "C"⟩, ⟨"D.md", "D"⟩]⟩
    ⟨[⟨"center-node", "file", "F.md", 400, 300, 300, 200⟩,
      ⟨"newnode-0", "file", "E.md", 850, 300, 300, 200⟩],
     [⟨"newedge-0", "center-node", "right", "newnode-0", "left"⟩], ⟨"t0", "t1"⟩⟩
    ⟨"F.md", "F"⟩ .right (fun i => "nn2-" ++ toString i)
    (fun i => "ne2-" ++ toString i) "t2"
    ⟨[⟨"center-node", "file", "F.md", 400, 300, 300, 200⟩,
      ⟨"newnode-0", "file", "E.md", 850, 300, 300, 200⟩,
      ⟨"nn2-0", "file", "C.md", 850, -180, 300, 200⟩,
      ⟨"nn2-1", "file", "D.md", 850, -180, 300, 200⟩],
     [⟨"newedge-0", "center-node", "right", "newnode-0", "left"⟩,
      ⟨"ne2-0", "center-node", "right", "nn2-0", "left"⟩,
      ⟨"ne2-1", "center-node", "right", "nn2-1", "left"⟩], ⟨"t0", "t2"⟩⟩
    (by decide)
    ⟨"nn2-0", "file", "C.md", 850, -180, 300, 200⟩ (by decide)
    ⟨"newnode-0", "file", "E.md", 850, 300, 300, 200⟩ (by decide)
    (by decide)

/-- Every value of the file-to-node-id map names a placed node. -/
def MapInto (m : List (String × String)) (nodes : List DNode) : Prop :=
  ∀ e ∈ m, e.2 ∈ nodes.map (fun n => n.id)

/-- Growing the node list preserves `MapInto`. -/
theorem MapInto.mono (m : List (String × String)) (nodes extra : List DNode)
    (h : MapInto m nodes) : MapInto m (nodes ++ extra) := by
  intro e he
  rw [List.map_append]
  exact List.mem_append_left _ (h e he)

/-- `mapSet` with a value naming a placed node preserves `MapInto`. -/
theorem mapSet_into (k v : String) (m : List (String × String))
    (nodes : List DNode) (hv : v ∈ nodes.map (fun n => n.id))
    (h : MapInto m nodes) : MapInto (mapSet k v m) nodes := by
  unfold mapSet
  split
  · intro e' he'
    obtain ⟨e, he, hee⟩ := List.mem_map.mp he'
    by_cases hk : (e.1 == k) = true
    · rw [if_pos hk] at hee
      exact hee ▸ hv
    · rw [if_neg hk] at hee
      exact hee ▸ h e he
  · intro e' he'
    rcases List.mem_append.mp he' with he' | he'
    · exact h e' he'
    · simp only [List.mem_singleton] at he'
      exact he' ▸ hv

/-- The row-placement loop keeps every map value pointing at a placed node. -/
theorem placeRow_into (activePath : String) (layerX layerStartY : ℚ) :
    ∀ (layer : List GNode) (j : Nat)
      (acc : List DNode × List (String × String) × Nat), MapInto acc.2.1 acc.1 →
      MapInto (placeRow activePath layerX layerStartY layer j acc).2.1
        (placeRow activePath layerX layerStartY layer j acc).1 := by
  intro layer
  induction layer with
  | nil => intro j acc h; exact h
  | cons nodeInfo rest ih =>
    intro j acc h
    obtain ⟨nodes, m, idx⟩ := acc
    rw [placeRow]
    split
    · exact ih (j + 1) (nodes, m, idx) h
    · apply ih
      apply mapSet_into
      · rw [List.map_append]
        exact List.mem_append_right _ (by simp)
      · exact MapInto.mono _ _ _ h

/-- The layer-placement loop keeps every map value pointing at a placed
node. -/
theorem placeLayers_into (w h : ℚ) (activePath : String) (cli : Int) :
    ∀ (layers : List (List GNode)) (li : Int)
      (acc : List DNode × List (String × String) × Nat), MapInto acc.2.1 acc.1 →
      MapInto (placeLayers w h activePath cli layers li acc).2.1
        (placeLayers w h activePath cli layers li acc).1 := by
  intro layers
  induction layers with
  | nil => intro li acc hm; exact hm
  | cons layer rest ih =>
    intro li acc hm
    obtain ⟨nodes, m, idx⟩ := acc
    rw [placeLayers]
    exact ih (li + 1) _ (placeRow_into activePath _ _ layer 0 (nodes, m, idx) hm)

/-- A successful `mapGet` returns one of the map's values. -/
theorem mapGet_mem_values (m : List (String × String)) (k v : String)
    (h : mapGet m k = some v) : v ∈ m.map (fun e => e.2) := by
  unfold mapGet at h
  cases hfind : m.find? (fun e => e.1 == k) with
  | none => rw [hfind] at h; exact absurd h (by simp)
  | some e =>
    rw [hfind] at h
    simp only [Option.map] at h
    have hv : e.2 = v := by simpa using h
    exact hv ▸ List.mem_map_of_mem _ (List.mem_of_find?_eq_some hfind)

/-- Every edge produced by the inner edge loop (beyond those already
accumulated) joins two map values and is not a self-loop. -/
theorem buildEdgesInner_prop (m : List (String × String)) (fid : String)
    (hfid : fid ∈ m.map (fun e => e.2)) :
    ∀ (toPaths : List String) (es : List DEdge) (k : Nat),
      (∀ e ∈ es, e.fromNode ∈ m.map (fun x => x.2) ∧
        e.toNode ∈ m.map (fun x => x.2) ∧ e.fromNode ≠ e.toNode) →
      ∀ e ∈ (buildEdgesInner m fid toPaths (es, k)).1,
        e.fromNode ∈ m.map (fun x => x.2) ∧
        e.toNode ∈ m.map (fun x => x.2) ∧ e.fromNode ≠ e.toNode := by
  intro toPaths
  induction toPaths with
  | nil => intro es k hes; exact hes
  | cons toPath rest ih =>
    intro es k hes
    rw [buildEdgesInner]
    split
    · exact ih es k hes
    · rename_i tid hget
      split
      · rename_i hne
        apply ih
        intro e he
        rcases List.mem_append.mp he with he | he
        · exact hes e he
        · simp only [List.mem_singleton] at he
          subst he
          exact ⟨hfid, mapGet_mem_values m toPath tid hget, hne⟩
      · exact ih es k hes

/-- Every edge produced by the outer edge loop joins two map values and is
not a self-loop. -/
theorem buildEdges_prop (m : List (String × String)) :
    ∀ (conns : List (String × List String)) (es : List DEdge) (k : Nat),
      (∀ e ∈ es, e.fromNode ∈ m.map (fun x => x.2) ∧
        e.toNode ∈ m.map (fun x => x.2) ∧ e.fromNode ≠ e.toNode) →
      ∀ e ∈ (buildEdges m conns (es, k)).1,
        e.fromNode ∈ m.map (fun x => x.2) ∧
        e.toNode ∈ m.map (fun x => x.2) ∧ e.fromNode ≠ e.toNode := by
  intro conns
  induction conns with
  | nil => intro es k hes; exact hes
  | cons c rest ih =>
    intro es k hes
    rw [buildEdges]
    split
    · exact ih es k hes
    · rename_i fid hget
      intro e he
      have hinner := buildEdgesInner_prop m fid
        (mapGet_mem_values m c.1 fid hget) c.2 es k hes
      -- the recursion continues from the inner result
      have := ih (buildEdgesInner m fid c.2 (es, k)).1
        (buildEdgesInner m fid c.2 (es, k)).2 hinner e
      apply this
      have hpair : (buildEdgesInner m fid c.2 (es, k)).1 =
          (buildEdgesInner m fid c.2 (es, k)).1 := rfl
      convert he using 2

/-- The placement stage's file-to-node-id map points only at placed nodes. -/
theorem placedOf_map_into (env : Env) (settings : Settings) (file : Doc) :
    MapInto (placedOf env settings file).2.1 (placedOf env settings file).1 := by
  unfold placedOf
  dsimp only
  apply placeLayers_into
  intro x hx
  simp only [List.mem_singleton] at hx
  subst hx
  simp

/-- C10. In the from-scratch build, every emitted diagram edge has distinct
endpoint ids and both endpoints are ids of placed nodes; consequently no
produced edge is a self-loop, and a recorded connection with an unplaced
source or target contributes no edge (the loops skip exactly those). -/
theorem C10_edge_filter (env : Env) (settings : Settings) (file : Doc)
    (now : String) :
    ∀ e ∈ (createCanvasContent env settings file now).edges,
      e.fromNode ≠ e.toNode ∧
      e.fromNode ∈ (createCanvasContent env settings file now).nodes.map
        (fun n => n.id) ∧
      e.toNode ∈ (createCanvasContent env settings file now).nodes.map
        (fun n => n.id) := by
  intro e he
  have he' : e ∈ (buildEdges (placedOf env settings file).2.1
      (getAllNodesAndConnections env file settings.linkDepth).conns ([], 0)).1 := he
  have hP := buildEdges_prop (placedOf env settings file).2.1
    (getAllNodesAndConnections env file settings.linkDepth).conns [] 0
    (by intro x hx; exact absurd hx (List.not_mem_nil _)) e he'
  obtain ⟨h1, h2, h3⟩ := hP
  have hminto := placedOf_map_into env settings file
  refine ⟨h3, ?_, ?_⟩
  · obtain ⟨entry, hent, hv⟩ := List.mem_map.mp h1
    exact hv ▸ hminto entry hent
  · obtain ⟨entry, hent, hv⟩ := List.mem_map.mp h2
    exact hv ▸ hminto entry hent

/-- Closed instance of C10 on the scenario `A.md → B.md` build: its single
emitted edge `edge-0` joins the center node to the placed `B` node and is no
self-loop. -/
theorem C10_edge_filter_witness :
    ("center-node" : String) ≠ "node-0" ∧
    "center-node" ∈ (createCanvasContent
      ⟨[("A.md", ["B.md"])], [⟨"A.md", "A"⟩, ⟨"B.md", "B"⟩]⟩
      ⟨800, 600, 1⟩ ⟨"A.md", "A"⟩ "t").nodes.map (fun n => n.id) ∧
    ("node-0" : String) ∈ (createCanvasContent
      ⟨[("A.md", ["B.md"])], [⟨"A.md", "A"⟩, ⟨"B.md", "B"⟩]⟩
      ⟨800, 600, 1⟩ ⟨"A.md", "A"⟩ "t").nodes.map (fun n => n.id) :=
  C10_edge_filter ⟨[("A.md", ["B.md"])], [⟨"A.md", "A"⟩, ⟨"B.md", "B"⟩]⟩
    ⟨800, 600, 1⟩ ⟨"A.md", "A"⟩ "t"
    ⟨"edge-0", "center-node", "right", "node-0", "left"⟩ (by decide)

/-- Dropping empty layers does not change the concatenation of the layers. -/
theorem flatten_filter_nonempty {α : Type} (L : List (List α)) :
    (L.filter (fun l => !l.isEmpty)).flatten = L.flatten := by
  induction L with
  | nil => rfl
  | cons l rest ih =>
    by_cases hl : l.isEmpty = true
    · have hnil : l = [] := List.isEmpty_iff.mp hl
      simp [List.filter_cons, hl, hnil, ih]
    · simp [List.filter_cons, hl, ih]

/-- `listMaxNat` bounds every element of the list. -/
theorem listMaxNat_ge (l : List Nat) : ∀ a ∈ l, a ≤ listMaxNat l := by
  induction l with
  | nil => simp
  | cons b t ih =>
    intro a ha
    rcases List.mem_cons.mp ha with ha | ha
    · subst ha
      exact le_max_left _ _
    · exact le_trans (ih a ha) (le_max_right _ _)

/-- Counting in a filtered list: the full count when the element satisfies
the predicate, zero otherwise. -/
theorem count_filter_eq (p : GNode → Bool) (n : GNode) (ns : List GNode) :
    (ns.filter p).count n = if p n then ns.count n else 0 := by
  by_cases hp : p n = true
  · rw [if_pos hp]
    exact List.count_filter hp
  · rw [if_neg hp]
    rw [List.count_eq_zero]
    intro hmem
    exact hp (List.mem_filter.mp hmem).2

/-- Summing an indicator over an initial segment of the naturals. -/
theorem sum_if_range (k v cnt : Nat) :
    ((List.range k).map (fun ℓ => if ℓ = v then cnt else 0)).sum =
      if v < k then cnt else 0 := by
  induction k with
  | zero => simp
  | succ k ih =>
    rw [List.range_succ, List.map_append, List.sum_append]
    simp only [List.map_cons, List.map_nil, List.sum_cons, List.sum_nil]
    by_cases hv : v < k
    · have hkv : ¬ k = v := by omega
      have hv1 : v < k + 1 := by omega
      simp [ih, hv, hkv, hv1]
    · by_cases hkv : k = v
      · subst hkv
        simp [ih, hv]
      · have hv1 : ¬ v < k + 1 := by omega
        simp [ih, hv, hkv, hv1]

/-- An element's count is bounded by its path's count in the path list. -/
theorem count_le_count_path (ns : List GNode) (n : GNode) :
    ns.count n ≤ (ns.map (fun x => x.doc.path)).count n.doc.path := by
  induction ns with
  | nil => simp
  | cons a t ih =>
    rw [List.map_cons, List.count_cons, List.count_cons]
    by_cases ha : (a == n) = true
    · have hae : a = n := eq_of_beq ha
      have hpath : (a.doc.path == n.doc.path) = true := by rw [hae]; simp
      rw [if_pos ha, if_pos hpath]
      omega
    · rw [if_neg ha]
      by_cases hp : (a.doc.path == n.doc.path) = true
      · rw [if_pos hp]
        omega
      · rw [if_neg hp]
        omega

/-- In a node list with duplicate-free paths, a member occurs exactly once. -/
theorem count_eq_one_of_nodup_paths (ns : List GNode)
    (hnd : (ns.map (fun x => x.doc.path)).Nodup) (n : GNode) (hn : n ∈ ns) :
    ns.count n = 1 := by
  have h1 : 1 ≤ ns.count n := List.one_le_count_iff.mpr hn
  have h2 : ns.count n ≤ 1 :=
    le_trans (count_le_count_path ns n)
      (List.nodup_iff_count_le_one.mp hnd n.doc.path)
  omega

/-- A non-center node's count in one sorted bucket layer: the full list count
when the bucket matches the node's class and level, zero otherwise. -/
theorem count_bucket (c : Doc) (ns : List GNode) (n : GNode)
    (hne : n.doc.path ≠ c.path) (clsTest : GNode → Bool) (ℓ : Nat) :
    List.count n (List.insertionSort gnodeLe
      ((if ℓ = 0 then [(⟨c, 0, false⟩ : GNode)] else []) ++
        ns.filter (fun x => x.doc.path ≠ c.path && clsTest x && x.level == ℓ))) =
      if clsTest n = true then (if ℓ = n.level then ns.count n else 0) else 0 := by
  rw [(List.perm_insertionSort gnodeLe _).count_eq, List.count_append]
  have hpre : List.count n (if ℓ = 0 then [(⟨c, 0, false⟩ : GNode)] else []) = 0 := by
    split
    · rw [List.count_eq_zero]
      intro hmem
      simp only [List.mem_singleton] at hmem
      exact hne (by rw [hmem])
    · simp
  rw [hpre, Nat.zero_add, count_filter_eq]
  by_cases h1 : clsTest n = true
  · by_cases h2 : ℓ = n.level
    · subst h2
      simp [hne, h1]
    · have hb : (n.level == ℓ) = false := by
        simp
        omega
      simp [hne, h1, h2, hb]
  · simp [h1]

/-- A non-center node's count summed over one side's bucket layers. -/
theorem sum_count_buckets (c : Doc) (ns : List GNode) (n : GNode)
    (hne : n.doc.path ≠ c.path) (clsTest : GNode → Bool) (k : Nat) :
    ((List.range k).map (List.count n ∘ fun ℓ =>
      List.insertionSort gnodeLe
        ((if ℓ = 0 then [(⟨c, 0, false⟩ : GNode)] else []) ++
          ns.filter (fun x => x.doc.path ≠ c.path && clsTest x && x.level == ℓ)))).sum =
    if clsTest n = true ∧ n.level < k then ns.count n else 0 := by
  by_cases hcls : clsTest n = true
  · have h1 : ∀ ℓ ∈ List.range k, (List.count n ∘ fun ℓ =>
        List.insertionSort gnodeLe
          ((if ℓ = 0 then [(⟨c, 0, false⟩ : GNode)] else []) ++
            ns.filter (fun x => x.doc.path ≠ c.path && clsTest x && x.level == ℓ))) ℓ =
        (fun ℓ => if ℓ = n.level then ns.count n else 0) ℓ := by
      intro ℓ _
      simp only [Function.comp_apply]
      rw [count_bucket c ns n hne clsTest ℓ, if_pos hcls]
    rw [List.map_congr_left h1, sum_if_range]
    simp [hcls]
  · have h1 : ∀ ℓ ∈ List.range k, (List.count n ∘ fun ℓ =>
        List.insertionSort gnodeLe
          ((if ℓ = 0 then [(⟨c, 0, false⟩ : GNode)] else []) ++
            ns.filter (fun x => x.doc.path ≠ c.path && clsTest x && x.level == ℓ))) ℓ =
        (fun _ => 0) ℓ := by
      intro ℓ _
      simp only [Function.comp_apply]
      rw [count_bucket c ns n hne clsTest ℓ, if_neg hcls]
    rw [List.map_congr_left h1]
    simp [hcls]

/-- Counting a non-center member of the node list over the concatenation of
the composed layers gives exactly its count in the input list. -/
theorem organize_flatten_count (c : Doc) (ns : List GNode)
    (conns : List (String × List String)) (n : GNode) (hn : n ∈ ns)
    (hne : n.doc.path ≠ c.path) :
    (organizeNodesIntoLayers c ns conns).flatten.count n = ns.count n := by
  unfold organizeNodesIntoLayers
  dsimp only
  rw [flatten_filter_nonempty, List.flatten_append, List.count_append,
    List.count_flatten, List.count_flatten, List.map_reverse, List.sum_reverse,
    List.map_map, List.map_map]
  rw [sum_count_buckets c ns n hne (fun x => x.isBacklink) _,
    sum_count_buckets c ns n hne (fun x => !x.isBacklink) _]
  by_cases hb : n.isBacklink = true
  · have hmem : n.level ∈ ((ns.filter (fun x => x.isBacklink)).map (fun x => x.level)) :=
      List.mem_map_of_mem _ (List.mem_filter.mpr ⟨hn, hb⟩)
    have hlev : n.level < listMaxNat ((ns.filter (fun x => x.isBacklink)).map
        (fun x => x.level)) + 1 :=
      Nat.lt_succ_of_le (listMaxNat_ge _ _ hmem)
    simp [hb, hlev]
  · have hmem : n.level ∈ ((ns.filter (fun x => !x.isBacklink)).map (fun x => x.level)) :=
      List.mem_map_of_mem _ (List.mem_filter.mpr ⟨hn, by simp [hb]⟩)
    have hlev : n.level < listMaxNat ((ns.filter (fun x => !x.isBacklink)).map
        (fun x => x.level)) + 1 :=
      Nat.lt_succ_of_le (listMaxNat_ge _ _ hmem)
    simp [hb, hlev]

/-- Entries carrying the center path in one sorted bucket layer: exactly the
synthetic center entry of the level-0 bucket. -/
theorem countP_bucket (c : Doc) (ns : List GNode) (clsTest : GNode → Bool) (ℓ : Nat) :
    List.countP (fun x => x.doc.path == c.path) (List.insertionSort gnodeLe
      ((if ℓ = 0 then [(⟨c, 0, false⟩ : GNode)] else []) ++
        ns.filter (fun x => x.doc.path ≠ c.path && clsTest x && x.level == ℓ))) =
      if ℓ = 0 then 1 else 0 := by
  rw [(List.perm_insertionSort gnodeLe _).countP_eq, List.countP_append]
  have hfilt : List.countP (fun x => x.doc.path == c.path)
      (ns.filter (fun x => x.doc.path ≠ c.path && clsTest x && x.level == ℓ)) = 0 := by
    rw [List.countP_eq_zero]
    intro a ha
    have hpred := (List.mem_filter.mp ha).2
    simp only [Bool.and_eq_true] at hpred
    have hne : a.doc.path ≠ c.path := by simpa using hpred.1.1
    simpa using hne
  rw [hfilt, Nat.add_zero]
  split
  · simp [List.countP_cons]
  · simp

/-- Entries carrying the center path in the concatenation of the composed
layers: exactly two — the synthetic center entries of the level-0 backlink
and level-0 forward-link layers, both of which survive the nonempty
filter. -/
theorem organize_flatten_countP_center (c : Doc) (ns : List GNode)
    (conns : List (String × List String)) :
    (organizeNodesIntoLayers c ns conns).flatten.countP
      (fun x => x.doc.path == c.path) = 2 := by
  unfold organizeNodesIntoLayers
  dsimp only
  rw [flatten_filter_nonempty, List.flatten_append, List.countP_append,
    List.countP_flatten, List.countP_flatten, List.map_reverse, List.sum_reverse,
    List.map_map, List.map_map]
  have key : ∀ (clsTest : GNode → Bool) (k : Nat),
      ((List.range (k + 1)).map ((List.countP fun x => x.doc.path == c.path) ∘ fun ℓ =>
        List.insertionSort gnodeLe
          ((if ℓ = 0 then [(⟨c, 0, false⟩ : GNode)] else []) ++
            ns.filter (fun x => x.doc.path ≠ c.path && clsTest x && x.level == ℓ)))).sum
        = 1 := by
    intro clsTest k
    have h1 : ∀ ℓ ∈ List.range (k + 1),
        ((List.countP fun x => x.doc.path == c.path) ∘ fun ℓ =>
          List.insertionSort gnodeLe
            ((if ℓ = 0 then [(⟨c, 0, false⟩ : GNode)] else []) ++
              ns.filter (fun x => x.doc.path ≠ c.path && clsTest x && x.level == ℓ))) ℓ =
        (fun ℓ => if ℓ = 0 then 1 else 0) ℓ := by
      intro ℓ _
      simp only [Function.comp_apply]
      exact countP_bucket c ns clsTest ℓ
    rw [List.map_congr_left h1, sum_if_range]
    simp
  rw [key (fun x => x.isBacklink) _, key (fun x => !x.isBacklink) _]

/-- C2 amended. For every seed and every exploration result, each non-seed
node occurs exactly once in the concatenation of the returned layers (it is
placed in exactly one layer), but entries carrying the seed's path occur
exactly twice — the synthetic center entries pushed into the level-0
backlink and level-0 forward-link layers, both of which are emitted. -/
theorem C2_amended_layer_partition (env : Env) (seed : Doc) (depth : Nat) :
    (∀ n ∈ (getAllNodesAndConnections env seed depth).nodes,
      n.doc.path ≠ seed.path →
      (organizeNodesIntoLayers seed (getAllNodesAndConnections env seed depth).nodes
        (getAllNodesAndConnections env seed depth).conns).flatten.count n = 1) ∧
    (organizeNodesIntoLayers seed (getAllNodesAndConnections env seed depth).nodes
      (getAllNodesAndConnections env seed depth).conns).flatten.countP
      (fun x => x.doc.path == seed.path) = 2 := by
  refine ⟨?_, organize_flatten_countP_center _ _ _⟩
  intro n hn hne
  rw [organize_flatten_count _ _ _ n hn hne]
  exact count_eq_one_of_nodup_paths _ (getAllNodes_wf env seed depth).1 n hn

/-- Closed instance of the amended C2 on the scenario `A.md → B.md`: the `B`
node occurs exactly once across the returned layers, and seed entries occur
exactly twice. -/
theorem C2_amended_layer_partition_witness :
    (organizeNodesIntoLayers ⟨"A.md", "A"⟩
      (getAllNodesAndConnections
        ⟨[("A.md", ["B.md"])], [⟨"A.md", "A"⟩, ⟨"B.md", "B"⟩]⟩ ⟨"A.md", "A"⟩ 1).nodes
      (getAllNodesAndConnections
        ⟨[("A.md", ["B.md"])], [⟨"A.md", "A"⟩, ⟨"B.md", "B"⟩]⟩ ⟨"A.md", "A"⟩ 1).conns).flatten.count
      ⟨⟨"B.md", "B"⟩, 1, false⟩ = 1 ∧
    (organizeNodesIntoLayers ⟨"A.md", "A"⟩
      (getAllNodesAndConnections
        ⟨[("A.md", ["B.md"])], [⟨"A.md", "A"⟩, ⟨"B.md", "B"⟩]⟩ ⟨"A.md", "A"⟩ 1).nodes
      (getAllNodesAndConnections
        ⟨[("A.md", ["B.md"])], [⟨"A.md", "A"⟩, ⟨"B.md", "B"⟩]⟩ ⟨"A.md", "A"⟩ 1).conns).flatten.countP
      (fun x => x.doc.path == "A.md") = 2 :=
  ⟨(C2_amended_layer_partition
      ⟨[("A.md", ["B.md"])], [⟨"A.md", "A"⟩, ⟨"B.md", "B"⟩]⟩ ⟨"A.md", "A"⟩ 1).1
      ⟨⟨"B.md", "B"⟩, 1, false⟩ (by decide) (by decide),
   (C2_amended_layer_partition
      ⟨[("A.md", ["B.md"])], [⟨"A.md", "A"⟩, ⟨"B.md", "B"⟩]⟩ ⟨"A.md", "A"⟩ 1).2⟩

/-- C1 amended. For the scenario seed `A.md` whose only link is a forward
link to `B.md`, explored with depth 1, the build places `A` at the canvas
center and `B` at `canvasWidth / 2 + 2 * horizontalSpacing` — two column
steps to the right of the center, not one — at the same vertical center,
for every canvas size. -/
theorem C1_amended_layout (w h : ℚ) :
    (createCanvasContent ⟨[("A.md", ["B.md"])], [⟨"A.md", "A"⟩, ⟨"B.md", "B"⟩]⟩
      ⟨w, h, 1⟩ ⟨"A.md", "A"⟩ "t").nodes.map (fun n => (n.file, n.x, n.y)) =
    [("A.md", w / 2, h / 2), ("B.md", w / 2 + 2 * horizontalSpacing, h / 2)] := by
  have hexp : getAllNodesAndConnections
      ⟨[("A.md", ["B.md"])], [⟨"A.md", "A"⟩, ⟨"B.md", "B"⟩]⟩ ⟨"A.md", "A"⟩ 1 =
      ⟨["A.md", "B.md"],
       [⟨⟨"A.md", "A"⟩, 0, false⟩, ⟨⟨"B.md", "B"⟩, 1, false⟩],
       [("A.md", ["B.md"]), ("B.md", [])]⟩ := by decide
  have horg : organizeNodesIntoLayers ⟨"A.md", "A"⟩
      [⟨⟨"A.md", "A"⟩, 0, false⟩, ⟨⟨"B.md", "B"⟩, 1, false⟩]
      [("A.md", ["B.md"]), ("B.md", [])] =
      [[⟨⟨"A.md", "A"⟩, 0, false⟩], [⟨⟨"A.md", "A"⟩, 0, false⟩],
       [⟨⟨"B.md", "B"⟩, 1, false⟩]] := by decide
  unfold createCanvasContent placedOf
  dsimp only
  rw [hexp]
  dsimp only
  rw [horg]
  rw [show findIndexCenter
      [[(⟨⟨"A.md", "A"⟩, 0, false⟩ : GNode)], [⟨⟨"A.md", "A"⟩, 0, false⟩],
       [⟨⟨"B.md", "B"⟩, 1, false⟩]] "A.md" = 0 from by decide]
  simp only [placeLayers, placeRow, mapSet]
  rw [if_neg (by decide : ¬ (("B.md" : String) == "A.md") = true)]
  norm_num [horizontalSpacing, verticalSpacing]
